import Mathlib

/-!
# Verification of the burritobot Chipotle client

Shallow embedding of the core logic of the `burritobot` repository
(crates/bb-chipotle, pepper-api and the burritocli batch loop) together
with proofs about it.  Rust strings are modelled as `List Char`, `f32`
prices as `ℚ` (no price arithmetic is ever performed, only copying and
comparison), `i32` ids as `Int`, and fallible or panicking code as
`Except`/`Option` values, where `Option.none` models a panic.
-/

set_option autoImplicit false

namespace Burrito

/-! ## String primitives (models of the Rust `str` operations used) -/

/-- Model of `str::to_lowercase` (the repository only ever lowercases
ASCII item names and types). -/
def lowerStr (s : List Char) : List Char := s.map Char.toLower

/-- Model of `str::trim`: remove leading and trailing whitespace. -/
def trimStr (s : List Char) : List Char :=
  ((s.dropWhile Char.isWhitespace).reverse.dropWhile Char.isWhitespace).reverse

/-- Model of `str::contains` for a pattern `pat` inside `s`:
some suffix of `s` starts with `pat`. -/
def containsSub (pat : List Char) : List Char → Bool
  | [] => pat.isEmpty
  | c :: rest => pat.isPrefixOf (c :: rest) || containsSub pat rest

/-- Model of `str::replace pat val` for a non-empty pattern: scan left to
right, replace each leftmost non-overlapping occurrence of `pat` by `val`.
(The repository only calls `replace` with the non-empty patterns
`"bowl"`, `"$store"` and validated replace tokens.) -/
def strReplace (pat val : List Char) : List Char → List Char
  | [] => []
  | c :: rest =>
    if h : pat ≠ [] ∧ pat.isPrefixOf (c :: rest) then
      val ++ strReplace pat val ((c :: rest).drop pat.length)
    else
      c :: strReplace pat val rest
termination_by s => s.length
decreasing_by
  · simp only [List.length_drop, List.length_cons]
    have hp : 0 < pat.length := List.length_pos.mpr h.1
    omega
  · simp only [List.length_cons]; omega

/-! ## Menu summary reduction (crates/bb-chipotle/src/menu/summary.rs) -/

/-- `Price` from summary.rs; `f32` fields modelled as `ℚ`. -/
structure Price where
  normal_price : ℚ
  delivery_price : ℚ
  deriving DecidableEq, Repr

/-- `Item` from menu/get.rs (camelCase JSON fields). -/
structure Item where
  item_category : List Char
  item_type : List Char
  item_id : List Char
  item_name : List Char
  unit_price : ℚ
  unit_delivery_price : ℚ
  deriving DecidableEq, Repr

/-- `Response` from menu/get.rs. -/
structure MenuResponse where
  restaurant_id : Int
  entrees : List Item
  sides : List Item
  deriving DecidableEq, Repr

/-- `Summary` from summary.rs. -/
structure Summary where
  restaurant_id : Int
  veggie_bowl_price : Price
  chicken_bowl_price : Price
  steak_bowl_price : Price
  deriving DecidableEq, Repr

/-- `SummaryBuilder` from summary.rs. -/
structure SummaryBuilder where
  restaurant_id : Option Int := none
  veggie_bowl_price : Option Price := none
  chicken_bowl_price : Option Price := none
  steak_bowl_price : Option Price := none
  deriving DecidableEq, Repr

/-- `BuildError` from summary.rs; the missing-field names are kept as
character lists. -/
inductive BuildError where
  | MissingFields (fields : List (List Char))
  deriving DecidableEq, Repr

/-- `SummaryBuilder::is_complete`. -/
def SummaryBuilder.isComplete (b : SummaryBuilder) : Bool :=
  b.restaurant_id.isSome && b.veggie_bowl_price.isSome &&
    b.chicken_bowl_price.isSome && b.steak_bowl_price.isSome

/-- `SummaryBuilder::build`: if incomplete, report the missing fields in
declaration order; otherwise unwrap all four fields.  The final wildcard
branch models the `unwrap()` calls, which are unreachable because the
builder is complete there. -/
def SummaryBuilder.build (b : SummaryBuilder) : Except BuildError Summary :=
  if !b.isComplete then
    .error (.MissingFields (
      (if b.restaurant_id.isNone then ["restaurant_id".data] else []) ++
      (if b.veggie_bowl_price.isNone then ["veggie_bowl_price".data] else []) ++
      (if b.chicken_bowl_price.isNone then ["chicken_bowl_price".data] else []) ++
      (if b.steak_bowl_price.isNone then ["steak_bowl_price".data] else [])))
  else
    match b.restaurant_id, b.veggie_bowl_price, b.chicken_bowl_price, b.steak_bowl_price with
    | some i, some v, some c, some s =>
      .ok { restaurant_id := i, veggie_bowl_price := v,
            chicken_bowl_price := c, steak_bowl_price := s }
    | _, _, _, _ => .error (.MissingFields [])

/-- Normalised variant key of an item name:
`item_name.to_lowercase().replace("bowl", "").trim()`. -/
def normName (name : List Char) : List Char :=
  trimStr (strReplace "bowl".data [] (lowerStr name))

/-- One iteration of the `for item in res.entrees` loop of
`TryFrom<Response> for Summary` (the part after the break/continue
checks): record the item's prices for the variant its name maps to. -/
def stepItem (b : SummaryBuilder) (item : Item) : SummaryBuilder :=
  let price : Price := { normal_price := item.unit_price,
                         delivery_price := item.unit_delivery_price }
  if normName item.item_name = "veggie".data then
    { b with veggie_bowl_price := some price }
  else if normName item.item_name = "chicken".data then
    { b with chicken_bowl_price := some price }
  else if normName item.item_name = "steak".data then
    { b with steak_bowl_price := some price }
  else b

/-- The full entree loop: break once complete, skip non-bowl types,
otherwise apply `stepItem`. -/
def reduceItems (b : SummaryBuilder) : List Item → SummaryBuilder
  | [] => b
  | item :: rest =>
    if b.isComplete then b
    else if lowerStr item.item_type ≠ "bowl".data then reduceItems b rest
    else reduceItems (stepItem b item) rest

/-- `TryFrom<Response> for Summary`. -/
def summaryTryFrom (res : MenuResponse) : Except BuildError Summary :=
  (reduceItems { restaurant_id := some res.restaurant_id } res.entrees).build

/-! ### Helper items and lemmas for the summary reducer -/

/-- A bowl-typed entree item with the given name and price. -/
def mkItem (ty nm : String) (p : ℚ) : Item :=
  { item_category := "entree".data, item_type := ty.data, item_id := "1".data,
    item_name := nm.data, unit_price := p, unit_delivery_price := p }

/-- A "Veggie Bowl" entree carrying the given price pair. -/
def veggieItem (p : Price) : Item :=
  { item_category := "entree".data, item_type := "Bowl".data, item_id := "1".data,
    item_name := "Veggie Bowl".data, unit_price := p.normal_price,
    unit_delivery_price := p.delivery_price }

/-- A "Chicken Bowl" entree carrying the given price pair. -/
def chickenItem (p : Price) : Item :=
  { item_category := "entree".data, item_type := "Bowl".data, item_id := "2".data,
    item_name := "Chicken Bowl".data, unit_price := p.normal_price,
    unit_delivery_price := p.delivery_price }

/-- A "Steak Bowl" entree carrying the given price pair. -/
def steakItem (p : Price) : Item :=
  { item_category := "entree".data, item_type := "Bowl".data, item_id := "3".data,
    item_name := "Steak Bowl".data, unit_price := p.normal_price,
    unit_delivery_price := p.delivery_price }

/-- A menu response with the given restaurant id and entrees and no sides. -/
def mkResponse (rid : Int) (es : List Item) : MenuResponse := ⟨rid, es, []⟩

/-- Menu response with two "veggie" items (prices 1 and 2), then chicken
and steak: the input of the duplicate-variant counterexample. -/
def dupVeggieResponse : MenuResponse :=
  mkResponse 5 [mkItem "Bowl" "Veggie Bowl" 1, mkItem "Bowl" "Veggie Bowl" 2,
    mkItem "Bowl" "Chicken Bowl" 3, mkItem "Bowl" "Steak Bowl" 4]

/-- The fixed field order used by `SummaryBuilder::build` error reports. -/
def fieldOrder : List (List Char) :=
  ["restaurant_id".data, "veggie_bowl_price".data, "chicken_bowl_price".data,
   "steak_bowl_price".data]

/-- The fields of a builder that are absent, listed in `fieldOrder`. -/
def absentFields (b : SummaryBuilder) : List (List Char) :=
  fieldOrder.filter (fun f =>
    (f = "restaurant_id".data && b.restaurant_id.isNone) ||
    (f = "veggie_bowl_price".data && b.veggie_bowl_price.isNone) ||
    (f = "chicken_bowl_price".data && b.chicken_bowl_price.isNone) ||
    (f = "steak_bowl_price".data && b.steak_bowl_price.isNone))

/-- An item the reduction loop ignores: its type does not normalize to
"bowl", or its normalized name is none of the three variant keys. -/
def irrelevantItem (item : Item) : Prop :=
  lowerStr item.item_type ≠ "bowl".data ∨
    normName item.item_name ∉ ["veggie".data, "chicken".data, "steak".data]

/-! ## Endpoint templates (crates/bb-chipotle/src/client.rs and menu/get.rs) -/

/-- `Endpoint` from client.rs: url with an optional replace token. -/
structure CEndpoint where
  url : List Char
  replace_token : Option (List Char)
  deriving DecidableEq, Repr

/-- `EndpointConfig` from client.rs. -/
structure EndpointConfig where
  api_key : Option CEndpoint
  menu : Option CEndpoint
  restaurant : Option CEndpoint
  deriving DecidableEq, Repr

/-- `EndpointConfigError` from client.rs (endpoint name and url or token
payloads kept as character lists). -/
inductive EndpointConfigError where
  | MissingReplaceToken (name url : List Char)
  | UnnecessaryReplaceToken (name token : List Char)
  deriving DecidableEq, Repr

/-- The restaurant check of `EndpointConfig::validate`: a supplied
restaurant token is unnecessary. -/
def EndpointConfig.validateRestaurant (cfg : EndpointConfig) :
    Except EndpointConfigError Unit :=
  match cfg.restaurant with
  | some e =>
    match e.replace_token with
    | some t => .error (.UnnecessaryReplaceToken "restaurant".data t)
    | none => .ok ()
  | none => .ok ()

/-- The menu check of `EndpointConfig::validate` followed by the
restaurant check: the menu profile must carry a token (presence only —
emptiness is not checked here). -/
def EndpointConfig.validateMenu (cfg : EndpointConfig) :
    Except EndpointConfigError Unit :=
  match cfg.menu with
  | some e =>
    match e.replace_token with
    | none => .error (.MissingReplaceToken "menu".data e.url)
    | some _ => cfg.validateRestaurant
  | none => cfg.validateRestaurant

/-- `EndpointConfig::validate`: the api_key profile must not carry a
token, the menu profile must carry one, the restaurant profile must not
carry one; checks run in that order. -/
def EndpointConfig.validate (cfg : EndpointConfig) : Except EndpointConfigError Unit :=
  match cfg.api_key with
  | some e =>
    match e.replace_token with
    | some t => .error (.UnnecessaryReplaceToken "api_key".data t)
    | none => cfg.validateMenu
  | none => cfg.validateMenu

/-- `Endpoint` from menu/get.rs: a validated menu endpoint template. -/
structure MenuEndpoint where
  url : List Char
  replace_token : List Char
  deriving DecidableEq, Repr

/-- `EndpointConfigError` from menu/get.rs. -/
inductive MenuEndpointError where
  | MissingEndpoint
  | MissingReplaceToken
  | ReplaceTokenNotInEndpoint
  deriving DecidableEq, Repr

/-- `Endpoint::try_new` from menu/get.rs. -/
def MenuEndpoint.tryNew (endpoint_format replace_token : List Char) :
    Except MenuEndpointError MenuEndpoint :=
  if replace_token = [] then .error .MissingReplaceToken
  else if endpoint_format = [] then .error .MissingEndpoint
  else if ¬ containsSub replace_token endpoint_format then
    .error .ReplaceTokenNotInEndpoint
  else .ok ⟨endpoint_format, replace_token⟩

/-- `Endpoint::to_url` from menu/get.rs:
`self.url.replace(&self.replace_token, store_id)`. -/
def MenuEndpoint.toUrl (e : MenuEndpoint) (store_id : List Char) : List Char :=
  strReplace e.replace_token store_id e.url

/-! ## API key extraction (crates/bb-chipotle/src/api_key.rs) -/

/-- `ApiKeyError` from api_key.rs (the transport error cases carry no
payload we need; the status is a `Nat`). -/
inductive ApiKeyError where
  | RequestError
  | ResponseError (status : Nat)
  | ResponseBodyError
  | ApiKeyNotFound
  deriving DecidableEq, Repr

/-- `reqwest::StatusCode::is_success`: the 2xx range. -/
def isSuccessStatus (status : Nat) : Bool :=
  200 ≤ status && status < 300

/-- The literal part of the API key pattern before the capture group:
`gatewaySubscriptionKey:Q("`. -/
def keyMarkerOpen : List Char := "gatewaySubscriptionKey:Q(\"".data

/-- The literal part of the API key pattern after the capture group:
`")`. -/
def keyMarkerClose : List Char := "\")".data

/-- The character class `[a-zA-Z0-9-]` of the capture group. -/
def keyChar (c : Char) : Bool := c.isAlphanum || c = '-'

/-- Try to match the key pattern at the start of `s`: the opening
literal, then a non-empty greedy run of `keyChar`, then the closing
literal.  (The class excludes `"`, so the greedy run is the only run the
regex engine can accept at this position.) -/
def matchKeyAt (s : List Char) : Option (List Char) :=
  if keyMarkerOpen.isPrefixOf s then
    let rest := s.drop keyMarkerOpen.length
    let key := rest.takeWhile keyChar
    if key ≠ [] && keyMarkerClose.isPrefixOf (rest.dropWhile keyChar) then
      some key
    else none
  else none

/-- `Regex::captures` for the API key pattern: leftmost match, first
capture group. -/
def extractApiKey : List Char → Option (List Char)
  | [] => none
  | c :: rest =>
    match matchKeyAt (c :: rest) with
    | some k => some k
    | none => extractApiKey rest

/-- An HTTP response as seen by the extraction code: status and text
body.  Transport failures (`RequestError`) and unreadable bodies
(`ResponseBodyError`) abort before this point and are modelled outside. -/
structure HttpResponse where
  status : Nat
  body : List Char
  deriving DecidableEq, Repr

/-- `api_key::get`, from the point where a response has been received:
non-success status fails with `ResponseError`, then the regex is applied
to the body; a missing match (or capture) is `ApiKeyNotFound`. -/
def apiKeyGet (resp : HttpResponse) : Except ApiKeyError (List Char) :=
  if !isSuccessStatus resp.status then .error (.ResponseError resp.status)
  else
    match extractApiKey resp.body with
    | some k => .ok k
    | none => .error .ApiKeyNotFound

/-! ## Client credential cache (crates/bb-chipotle/src/client.rs) -/

/-- The mutable state of `Client`: its endpoint configuration and the
cached API key (the `reqwest::Client` handle has no bearing on the
logic). -/
structure ClientState where
  endpoints : Option EndpointConfig
  api_key : Option (List Char)
  deriving DecidableEq, Repr

/-- `Client::load_api_key`.  The network fetch `api_key::get` is
abstracted as the `fetched` argument (the outcome the network would
produce on this call).  Returns the call result, the client state after
the call, and whether a fetch was performed. -/
def ClientState.loadApiKey (c : ClientState) (force_refresh : Bool)
    (fetched : Except ApiKeyError (List Char)) :
    Except ApiKeyError (List Char) × ClientState × Bool :=
  match c.api_key, force_refresh with
  | some k, false => (.ok k, c, false)
  | _, _ =>
    match fetched with
    | .ok k => (.ok k, { c with api_key := some k }, true)
    | .error e => (.error e, c, true)

/-! ## Location directory (crates/bb-chipotle/src/locations.rs) -/

/-- `Address` from locations.rs. -/
structure Address where
  postal_code : Option (List Char)
  country_code : List Char
  deriving DecidableEq, Repr

/-- `LocationData` from locations.rs. -/
structure LocationData where
  id : Int
  addresses : List Address
  deriving DecidableEq, Repr

/-- `Location` from locations.rs. -/
structure Location where
  id : Int
  zip_code : List Char
  deriving DecidableEq, Repr

/-- `ZIP_CODE_OVERRIDES`: the static override table `{3065 ↦ "75235"}`. -/
def zipOverrides (id : Int) : Option (List Char) :=
  if id = 3065 then some "75235".data else none

/-- `get_zip_code`: override value if present, else the address postal
code, truncated to the first 5 characters when longer.  The final
`unwrap()` panics when both are absent; the panic is modelled as
`none`. -/
def getZipCode (location_id : Int) (address : Address) : Option (List Char) :=
  ((zipOverrides location_id).or address.postal_code).map
    (fun x => if 5 < x.length then x.take 5 else x)

/-- `get_us_locations`: keep records whose first address exists and has
`country_code == "US"`; records with no address are logged and skipped.
An outer `none` models a panic inside `get_zip_code`. -/
def getUsLocations : List LocationData → Option (List Location)
  | [] => some []
  | l :: rest =>
    match l.addresses.head? with
    | none => getUsLocations rest
    | some a =>
      if a.country_code = "US".data then
        match getZipCode l.id a with
        | none => none
        | some z => (getUsLocations rest).map (⟨l.id, z⟩ :: ·)
      else getUsLocations rest

/-! ## Batch menu fetch (src/bin/burritocli.rs, Command::AllMenus) -/

/-- `slice::chunks`: consecutive chunks of size `n`, the last possibly
shorter.  (Rust panics for `n = 0`; the code always uses 5.) -/
def chunksOf {α : Type} (n : Nat) : List α → List (List α)
  | [] => []
  | x :: xs =>
    if h : n = 0 then []
    else (x :: xs).take n :: chunksOf n ((x :: xs).drop n)
termination_by l => l.length
decreasing_by
  simp only [List.length_drop, List.length_cons]
  omega

/-- One chunk of the batch loop: fetch every location's menu, pairing
each location with its summary.  The `.unwrap()` on a failed fetch
panics, modelled as `none`. -/
def fetchChunk {ε α : Type} (fetch : Location → Except ε α) :
    List Location → Option (List (Location × α))
  | [] => some []
  | l :: rest =>
    match fetch l with
    | .ok a => (fetchChunk fetch rest).map ((l, a) :: ·)
    | .error _ => none

/-- The chunk loop: process chunks in order, extending the accumulated
result; a panic in any chunk aborts the whole run. -/
def runChunks {ε α : Type} (fetch : Location → Except ε α) :
    List (List Location) → Option (List (Location × α))
  | [] => some []
  | c :: cs =>
    match fetchChunk fetch c, runChunks fetch cs with
    | some m, some rest => some (m ++ rest)
    | _, _ => none

/-- The `Command::AllMenus` batch run over `locations.chunks(5)`. -/
def runBatch {ε α : Type} (fetch : Location → Except ε α) (locations : List Location) :
    Option (List (Location × α)) :=
  runChunks fetch (chunksOf 5 locations)

/-- The chunk sizes produced by `chunksOf n` on a list of length `m`. -/
def chunkSizes (n : Nat) : Nat → List Nat
  | 0 => []
  | Nat.succ m =>
    if h : n = 0 then []
    else min n (m + 1) :: chunkSizes n (m + 1 - n)
termination_by m => m
decreasing_by omega

/-! ## Spec-side rendering characterization (for the refinement claim
about `Endpoint::to_url`) -/

/-- Modelled from the spec: the maximal segments of a string between
consecutive leftmost non-overlapping occurrences of the (non-empty)
token, found left to right. -/
def specSplit (pat : List Char) : List Char → List (List Char)
  | [] => [[]]
  | c :: rest =>
    if h : pat ≠ [] ∧ pat.isPrefixOf (c :: rest) then
      [] :: specSplit pat ((c :: rest).drop pat.length)
    else
      (specSplit pat rest).modifyHead (c :: ·)
termination_by s => s.length
decreasing_by
  · simp only [List.length_drop, List.length_cons]
    have hp : 0 < pat.length := List.length_pos.mpr h.1
    omega
  · simp only [List.length_cons]; omega

/-- Modelled from the spec: join segments, interleaving the separator
between consecutive segments. -/
def joinWith (sep : List Char) : List (List Char) → List Char
  | [] => []
  | [x] => x
  | x :: y :: rest => x ++ sep ++ joinWith sep (y :: rest)

/-! ## Concrete inputs used by counterexamples and witnesses -/

/-- An endpoint configuration whose menu endpoint carries an *empty*
replace token. -/
def emptyTokenMenuConfig : EndpointConfig :=
  { api_key := none,
    menu := some { url := "https://m/x".data, replace_token := some [] },
    restaurant := none }

/-- A parsed location record with a US first address that has no postal
code, for an id (1) outside the override table. -/
def noZipRecord : LocationData :=
  { id := 1, addresses := [{ postal_code := none, country_code := "US".data }] }

/-- A concrete location with id 1. -/
def cexLocA : Location := ⟨1, "11111".data⟩

/-- A concrete location with id 2. -/
def cexLocB : Location := ⟨2, "22222".data⟩

/-- A menu fetch that fails exactly on location id 1. -/
def cexFetch (l : Location) : Except Unit Unit :=
  if l.id = 1 then .error () else .ok ()

/-- A menu fetch that succeeds on every location. -/
def okFetch (_ : Location) : Except Unit Unit := .ok ()

/-- Twelve concrete locations. -/
def twelveLocs : List Location :=
  (List.range 12).map (fun i => ⟨Int.ofNat i, "75235".data⟩)

/-! ## Lemmas about the summary reducer -/

lemma reduceItems_of_complete (b : SummaryBuilder) (h : b.isComplete = true) :
    ∀ l : List Item, reduceItems b l = b := by
  intro l
  cases l with
  | nil => rfl
  | cons x xs => simp [reduceItems, h]

lemma stepItem_of_unmatched (b : SummaryBuilder) (item : Item)
    (h : normName item.item_name ∉ ["veggie".data, "chicken".data, "steak".data]) :
    stepItem b item = b := by
  simp only [List.mem_cons, List.mem_singleton, not_or] at h
  simp [stepItem, h.1, h.2.1, h.2.2.1]

lemma reduceItems_cons_irrelevant (item : Item) (hirr : irrelevantItem item)
    (b : SummaryBuilder) (ys : List Item) :
    reduceItems b (item :: ys) = reduceItems b ys := by
  by_cases hc : b.isComplete
  · simp [reduceItems, hc, reduceItems_of_complete b hc]
  · rcases hirr with hty | hnm
    · simp [reduceItems, hc, hty]
    · by_cases hty : lowerStr item.item_type ≠ "bowl".data
      · simp [reduceItems, hc, hty]
      · simp only [ne_eq, not_not] at hty
        simp [reduceItems, hc, hty, stepItem_of_unmatched b item hnm]

lemma reduceItems_append_irrelevant (item : Item) (hirr : irrelevantItem item)
    (ys : List Item) :
    ∀ (xs : List Item) (b : SummaryBuilder),
      reduceItems b (xs ++ item :: ys) = reduceItems b (xs ++ ys) := by
  intro xs
  induction xs with
  | nil => intro b; exact reduceItems_cons_irrelevant item hirr b ys
  | cons x xs ih =>
    intro b
    by_cases hc : b.isComplete
    · simp [reduceItems, hc]
    · by_cases hty : lowerStr x.item_type ≠ "bowl".data
      · simpa [reduceItems, hc, hty] using ih b
      · simpa [reduceItems, hc, hty] using ih (stepItem b x)

/-! ## Lemmas about replacement and splitting -/

lemma specSplit_cons_pos (pat : List Char) (c : Char) (rest : List Char)
    (h : pat ≠ [] ∧ pat.isPrefixOf (c :: rest)) :
    specSplit pat (c :: rest) = [] :: specSplit pat ((c :: rest).drop pat.length) := by
  rw [specSplit]
  exact dif_pos h

lemma specSplit_cons_neg (pat : List Char) (c : Char) (rest : List Char)
    (h : ¬ (pat ≠ [] ∧ pat.isPrefixOf (c :: rest))) :
    specSplit pat (c :: rest) = (specSplit pat rest).modifyHead (c :: ·) := by
  rw [specSplit]
  exact dif_neg h

lemma strReplace_cons_pos (pat val : List Char) (c : Char) (rest : List Char)
    (h : pat ≠ [] ∧ pat.isPrefixOf (c :: rest)) :
    strReplace pat val (c :: rest) = val ++ strReplace pat val ((c :: rest).drop pat.length) := by
  rw [strReplace]
  exact if_pos h

lemma strReplace_cons_neg (pat val : List Char) (c : Char) (rest : List Char)
    (h : ¬ (pat ≠ [] ∧ pat.isPrefixOf (c :: rest))) :
    strReplace pat val (c :: rest) = c :: strReplace pat val rest := by
  rw [strReplace]
  exact if_neg h

lemma specSplit_ne_nil (pat : List Char) : ∀ s : List Char, specSplit pat s ≠ [] := by
  have H : ∀ (n : Nat) (s : List Char), s.length ≤ n → specSplit pat s ≠ [] := by
    intro n
    induction n with
    | zero =>
      intro s hs
      have hnil : s = [] := List.length_eq_zero.mp (Nat.le_zero.mp hs)
      subst hnil
      simp [specSplit]
    | succ n ih =>
      intro s hs
      cases s with
      | nil => simp [specSplit]
      | cons c rest =>
        have hr : rest.length ≤ n := by
          simp only [List.length_cons] at hs; omega
        by_cases h : pat ≠ [] ∧ pat.isPrefixOf (c :: rest)
        · simp [specSplit_cons_pos pat c rest h]
        · rw [specSplit_cons_neg pat c rest h]
          rcases hL : specSplit pat rest with _ | ⟨x, r⟩
          · exact absurd hL (ih rest hr)
          · simp [List.modifyHead]
  intro s
  exact H s.length s le_rfl

lemma joinWith_modifyHead (val : List Char) (c : Char) (L : List (List Char)) (hL : L ≠ []) :
    joinWith val (L.modifyHead (c :: ·)) = c :: joinWith val L := by
  rcases L with _ | ⟨x, r⟩
  · exact absurd rfl hL
  · rcases r with _ | ⟨y, r2⟩ <;> simp [List.modifyHead, joinWith]

lemma joinWith_cons_of_ne_nil (val x : List Char) (L : List (List Char)) (hL : L ≠ []) :
    joinWith val (x :: L) = x ++ val ++ joinWith val L := by
  rcases L with _ | ⟨y, r⟩
  · exact absurd rfl hL
  · simp [joinWith]

lemma strReplace_eq_joinWith_specSplit (pat val : List Char) (hp : pat ≠ []) :
    ∀ s : List Char, strReplace pat val s = joinWith val (specSplit pat s) := by
  have H : ∀ (n : Nat) (s : List Char), s.length ≤ n →
      strReplace pat val s = joinWith val (specSplit pat s) := by
    intro n
    induction n with
    | zero =>
      intro s hs
      have hnil : s = [] := List.length_eq_zero.mp (Nat.le_zero.mp hs)
      subst hnil
      simp [strReplace, specSplit, joinWith]
    | succ n ih =>
      intro s hs
      cases s with
      | nil => simp [strReplace, specSplit, joinWith]
      | cons c rest =>
        have hr : rest.length ≤ n := by
          simp only [List.length_cons] at hs; omega
        by_cases h : pat ≠ [] ∧ pat.isPrefixOf (c :: rest)
        · have hd : ((c :: rest).drop pat.length).length ≤ n := by
            simp only [List.length_drop, List.length_cons]
            have : 0 < pat.length := List.length_pos.mpr hp
            omega
          rw [strReplace_cons_pos pat val c rest h, specSplit_cons_pos pat c rest h,
            joinWith_cons_of_ne_nil val [] _ (specSplit_ne_nil pat _),
            ih _ hd]
          simp
        · rw [strReplace_cons_neg pat val c rest h, specSplit_cons_neg pat c rest h,
            joinWith_modifyHead val c _ (specSplit_ne_nil pat rest), ih rest hr]
  intro s
  exact H s.length s le_rfl

lemma joinWith_pat_specSplit (pat : List Char) (hp : pat ≠ []) :
    ∀ s : List Char, joinWith pat (specSplit pat s) = s := by
  have H : ∀ (n : Nat) (s : List Char), s.length ≤ n →
      joinWith pat (specSplit pat s) = s := by
    intro n
    induction n with
    | zero =>
      intro s hs
      have hnil : s = [] := List.length_eq_zero.mp (Nat.le_zero.mp hs)
      subst hnil
      simp [specSplit, joinWith]
    | succ n ih =>
      intro s hs
      cases s with
      | nil => simp [specSplit, joinWith]
      | cons c rest =>
        have hr : rest.length ≤ n := by
          simp only [List.length_cons] at hs; omega
        by_cases h : pat ≠ [] ∧ pat.isPrefixOf (c :: rest)
        · have hd : ((c :: rest).drop pat.length).length ≤ n := by
            simp only [List.length_drop, List.length_cons]
            have : 0 < pat.length := List.length_pos.mpr hp
            omega
          rw [specSplit_cons_pos pat c rest h,
            joinWith_cons_of_ne_nil pat [] _ (specSplit_ne_nil pat _), ih _ hd]
          have hpre : pat <+: (c :: rest) := List.isPrefixOf_iff_prefix.mp h.2
          obtain ⟨t, ht⟩ := hpre
          rw [← ht]
          simp [List.drop_left]
        · rw [specSplit_cons_neg pat c rest h,
            joinWith_modifyHead pat c _ (specSplit_ne_nil pat rest), ih rest hr]
  intro s
  exact H s.length s le_rfl

lemma specSplit_segments_token_free (pat : List Char) (hp : pat ≠ []) :
    ∀ s : List Char, (∀ seg ∈ specSplit pat s, containsSub pat seg = false) ∧
      (specSplit pat s).headI <+: s := by
  have H : ∀ (n : Nat) (s : List Char), s.length ≤ n →
      (∀ seg ∈ specSplit pat s, containsSub pat seg = false) ∧
        (specSplit pat s).headI <+: s := by
    intro n
    induction n with
    | zero =>
      intro s hs
      have hnil : s = [] := List.length_eq_zero.mp (Nat.le_zero.mp hs)
      subst hnil
      constructor
      · intro seg hseg
        simp only [specSplit, List.mem_singleton] at hseg
        subst hseg
        rcases pat with _ | ⟨p, ps⟩
        · exact absurd rfl hp
        · simp [containsSub, List.isPrefixOf]
      · simp [specSplit]
    | succ n ih =>
      intro s hs
      cases s with
      | nil =>
        constructor
        · intro seg hseg
          simp only [specSplit, List.mem_singleton] at hseg
          subst hseg
          rcases pat with _ | ⟨p, ps⟩
          · exact absurd rfl hp
          · simp [containsSub, List.isPrefixOf]
        · simp [specSplit]
      | cons c rest =>
        have hr : rest.length ≤ n := by
          simp only [List.length_cons] at hs; omega
        by_cases h : pat ≠ [] ∧ pat.isPrefixOf (c :: rest)
        · have hd : ((c :: rest).drop pat.length).length ≤ n := by
            simp only [List.length_drop, List.length_cons]
            have : 0 < pat.length := List.length_pos.mpr h.1
            omega
          rw [specSplit_cons_pos pat c rest h]
          constructor
          · intro seg hseg
            rcases List.mem_cons.mp hseg with hseg | hseg
            · subst hseg
              rcases pat with _ | ⟨p, ps⟩
              · exact absurd rfl h.1
              · simp [containsSub, List.isPrefixOf]
            · exact (ih _ hd).1 seg hseg
          · simp
        · rw [specSplit_cons_neg pat c rest h]
          rcases hL : specSplit pat rest with _ | ⟨x, r⟩
          · exact absurd hL (specSplit_ne_nil pat rest)
          · have hihm := ih rest hr
            rw [hL] at hihm
            have hxfree : containsSub pat x = false := hihm.1 x (List.mem_cons_self x r)
            have hxpre : x <+: rest := by simpa using hihm.2
            constructor
            · intro seg hseg
              simp only [List.modifyHead, List.mem_cons] at hseg
              rcases hseg with hseg | hseg
              · subst hseg
                have hnp : pat.isPrefixOf (c :: x) = false := by
                  by_contra hcon
                  have hcon2 : pat.isPrefixOf (c :: x) = true := by
                    revert hcon; cases pat.isPrefixOf (c :: x) <;> simp
                  have h1 : pat <+: (c :: x) := List.isPrefixOf_iff_prefix.mp hcon2
                  have h2 : (c :: x) <+: (c :: rest) := by
                    obtain ⟨t, ht⟩ := hxpre
                    exact ⟨t, by rw [← ht]; simp⟩
                  have h3 : pat <+: (c :: rest) := h1.trans h2
                  exact h ⟨hp, List.isPrefixOf_iff_prefix.mpr h3⟩
                simp [containsSub, hnp, hxfree]
              · exact hihm.1 seg (List.mem_cons_of_mem x hseg)
            · simp only [List.modifyHead, List.headI]
              obtain ⟨t, ht⟩ := hxpre
              exact ⟨t, by rw [← ht]; simp⟩
  intro s
  exact H s.length s le_rfl

lemma strReplace_of_not_contains (pat val : List Char) :
    ∀ s : List Char, containsSub pat s = false → strReplace pat val s = s := by
  have H : ∀ (n : Nat) (s : List Char), s.length ≤ n → containsSub pat s = false →
      strReplace pat val s = s := by
    intro n
    induction n with
    | zero =>
      intro s hs _
      have hnil : s = [] := List.length_eq_zero.mp (Nat.le_zero.mp hs)
      subst hnil
      simp [strReplace]
    | succ n ih =>
      intro s hs hc
      cases s with
      | nil => simp [strReplace]
      | cons c rest =>
        have hr : rest.length ≤ n := by
          simp only [List.length_cons] at hs; omega
        simp only [containsSub, Bool.or_eq_false_iff] at hc
        rw [strReplace_cons_neg pat val c rest (by simp [hc.1]), ih rest hr hc.2]
  intro s
  exact H s.length s le_rfl

/-! ## Lemmas about the API key pattern -/

lemma takeWhile_keyChar_append (post : List Char) :
    ∀ k : List Char, (∀ c ∈ k, keyChar c = true) →
      (k ++ (keyMarkerClose ++ post)).takeWhile keyChar = k := by
  intro k
  induction k with
  | nil => intro _; simp [keyMarkerClose, keyChar, List.takeWhile]
  | cons c cs ih =>
    intro hkc
    have hc := hkc c (List.mem_cons_self c cs)
    simp only [List.cons_append, List.takeWhile_cons, hc, if_true]
    rw [ih (fun x hx => hkc x (List.mem_cons_of_mem c hx))]

lemma dropWhile_keyChar_append (post : List Char) :
    ∀ k : List Char, (∀ c ∈ k, keyChar c = true) →
      (k ++ (keyMarkerClose ++ post)).dropWhile keyChar = keyMarkerClose ++ post := by
  intro k
  induction k with
  | nil => intro _; simp [keyMarkerClose, keyChar, List.dropWhile]
  | cons c cs ih =>
    intro hkc
    have hc := hkc c (List.mem_cons_self c cs)
    simp only [List.cons_append, List.dropWhile_cons, hc, if_true]
    exact ih (fun x hx => hkc x (List.mem_cons_of_mem c hx))

lemma matchKeyAt_decompose (k post : List Char) (hk : k ≠ [])
    (hkc : ∀ c ∈ k, keyChar c = true) :
    matchKeyAt (keyMarkerOpen ++ (k ++ (keyMarkerClose ++ post))) = some k := by
  have hpre : keyMarkerOpen.isPrefixOf (keyMarkerOpen ++ (k ++ (keyMarkerClose ++ post))) := by
    simp [List.isPrefixOf_iff_prefix]
  have hdrop : (keyMarkerOpen ++ (k ++ (keyMarkerClose ++ post))).drop keyMarkerOpen.length =
      k ++ (keyMarkerClose ++ post) := List.drop_left keyMarkerOpen _
  have hclose : keyMarkerClose.isPrefixOf (keyMarkerClose ++ post) := by
    simp [List.isPrefixOf_iff_prefix]
  simp [matchKeyAt, hpre, hdrop, takeWhile_keyChar_append post k hkc,
    dropWhile_keyChar_append post k hkc, hk, hclose]

lemma extractApiKey_of_matchKeyAt (s : List Char) (k : List Char) (hs : s ≠ [])
    (hm : matchKeyAt s = some k) : extractApiKey s = some k := by
  cases s with
  | nil => exact absurd rfl hs
  | cons c rest => simp [extractApiKey, hm]

/-! ## Lemmas about chunking and the batch loop -/

lemma chunksOf_nil {α : Type} (n : Nat) : chunksOf n ([] : List α) = [] := by
  simp [chunksOf]

lemma chunksOf_cons {α : Type} (n : Nat) (hn : n ≠ 0) (x : α) (xs : List α) :
    chunksOf n (x :: xs) = (x :: xs).take n :: chunksOf n ((x :: xs).drop n) := by
  rw [chunksOf]
  exact dif_neg hn

lemma chunkSizes_succ (n : Nat) (hn : n ≠ 0) (m : Nat) :
    chunkSizes n (m + 1) = min n (m + 1) :: chunkSizes n (m + 1 - n) := by
  rw [chunkSizes]
  exact dif_neg hn

lemma chunksOf_map_length {α : Type} (n : Nat) (hn : n ≠ 0) :
    ∀ xs : List α, (chunksOf n xs).map List.length = chunkSizes n xs.length := by
  have H : ∀ (fuel : Nat) (xs : List α), xs.length ≤ fuel →
      (chunksOf n xs).map List.length = chunkSizes n xs.length := by
    intro fuel
    induction fuel with
    | zero =>
      intro xs hxs
      have hnil : xs = [] := List.length_eq_zero.mp (Nat.le_zero.mp hxs)
      subst hnil
      simp [chunksOf_nil, chunkSizes]
    | succ fuel ih =>
      intro xs hxs
      cases xs with
      | nil => simp [chunksOf_nil, chunkSizes]
      | cons x rest =>
        have hdlen : ((x :: rest).drop n).length ≤ fuel := by
          simp only [List.length_drop, List.length_cons]
          simp only [List.length_cons] at hxs
          omega
        rw [chunksOf_cons n hn x rest, List.map_cons, List.length_take,
          ih _ hdlen, List.length_drop]
        simp only [List.length_cons]
        rw [chunkSizes_succ n hn rest.length]
  intro xs
  exact H xs.length xs le_rfl

lemma chunksOf_flatten {α : Type} (n : Nat) (hn : n ≠ 0) :
    ∀ xs : List α, (chunksOf n xs).flatten = xs := by
  have H : ∀ (fuel : Nat) (xs : List α), xs.length ≤ fuel → (chunksOf n xs).flatten = xs := by
    intro fuel
    induction fuel with
    | zero =>
      intro xs hxs
      have hnil : xs = [] := List.length_eq_zero.mp (Nat.le_zero.mp hxs)
      subst hnil
      simp [chunksOf_nil]
    | succ fuel ih =>
      intro xs hxs
      cases xs with
      | nil => simp [chunksOf_nil]
      | cons x rest =>
        have hdlen : ((x :: rest).drop n).length ≤ fuel := by
          simp only [List.length_drop, List.length_cons]
          simp only [List.length_cons] at hxs
          omega
        rw [chunksOf_cons n hn x rest, List.flatten_cons, ih _ hdlen,
          List.take_append_drop]
  intro xs
  exact H xs.length xs le_rfl

lemma fetchChunk_all_ok {ε α : Type} (fetch : Location → Except ε α) :
    ∀ c : List Location, (∀ l ∈ c, (fetch l).isOk = true) →
      ∃ m, fetchChunk fetch c = some m ∧ m.map Prod.fst = c := by
  intro c
  induction c with
  | nil => intro _; exact ⟨[], rfl, rfl⟩
  | cons l rest ih =>
    intro hok
    obtain ⟨m, hm, hfst⟩ := ih (fun x hx => hok x (List.mem_cons_of_mem l hx))
    rcases hf : fetch l with e | a
    · have := hok l (List.mem_cons_self l rest)
      simp [hf, Except.isOk, Except.toBool] at this
    · exact ⟨(l, a) :: m, by simp [fetchChunk, hf, hm], by simp [hfst]⟩

lemma runChunks_all_ok {ε α : Type} (fetch : Location → Except ε α) :
    ∀ cs : List (List Location), (∀ c ∈ cs, ∀ l ∈ c, (fetch l).isOk = true) →
      ∃ out, runChunks fetch cs = some out ∧ out.map Prod.fst = cs.flatten := by
  intro cs
  induction cs with
  | nil => intro _; exact ⟨[], rfl, rfl⟩
  | cons c cs ih =>
    intro hok
    obtain ⟨out, hout, hfst⟩ := ih (fun x hx => hok x (List.mem_cons_of_mem c hx))
    obtain ⟨m, hm, hmfst⟩ := fetchChunk_all_ok fetch c (hok c (List.mem_cons_self c cs))
    exact ⟨m ++ out, by simp [runChunks, hm, hout], by simp [hmfst, hfst]⟩

/-! ## Claim theorems -/

/-- C1 (counterexample): the claim "first match wins" is false.  On a
response whose entrees are Veggie Bowl at price 1, Veggie Bowl at
price 2, Chicken Bowl at 3 and Steak Bowl at 4, the summary records the
*second* veggie item's price 2, not the first item's price 1. -/
theorem c1_first_match_counterexample :
    summaryTryFrom dupVeggieResponse =
      .ok { restaurant_id := 5, veggie_bowl_price := ⟨2, 2⟩,
            chicken_bowl_price := ⟨3, 3⟩, steak_bowl_price := ⟨4, 4⟩ } ∧
    (⟨2, 2⟩ : Price) ≠ ⟨1, 1⟩ := by
  constructor
  · simp [dupVeggieResponse, mkItem, mkResponse, summaryTryFrom, reduceItems, stepItem,
      normName, lowerStr, strReplace, trimStr, SummaryBuilder.isComplete, SummaryBuilder.build]
  · decide

/-- C1 (amended): when two items normalize to the same variant key, the
recorded price is that of the *last* such item scanned before the
builder becomes complete — a later duplicate overwrites an earlier one
while the builder is incomplete, and items after all three variants are
filled are ignored. -/
theorem c1_last_match_before_completion (rid : Int) (p1 p2 q r : Price) :
    summaryTryFrom (mkResponse rid [veggieItem p1, veggieItem p2, chickenItem q, steakItem r]) =
      .ok ⟨rid, p2, q, r⟩ ∧
    summaryTryFrom (mkResponse rid [veggieItem p1, chickenItem q, steakItem r, veggieItem p2]) =
      .ok ⟨rid, p1, q, r⟩ := by
  constructor <;>
  simp [mkResponse, veggieItem, chickenItem, steakItem, summaryTryFrom, reduceItems, stepItem,
    normName, lowerStr, strReplace, trimStr, SummaryBuilder.isComplete, SummaryBuilder.build]

/-- C2 (counterexample): a single failing location does *not* leave the
rest of the batch intact — the `.unwrap()` in the batch loop panics
(modelled as `none`), so the run yields no result set at all rather than
one entry per input location. -/
theorem c2_failure_aborts_batch_counterexample :
    runBatch cexFetch [cexLocA, cexLocB] = none := by
  simp [runBatch, chunksOf, runChunks, fetchChunk, cexFetch, cexLocA, cexLocB]

/-- C2 (amended): the batch loop partitions the location list into
consecutive chunks of the hardcoded size 5 with one smaller final chunk
(sizes 5, 5, 2 for 12 locations), and when *every* location's fetch
succeeds the final result has exactly one entry per input location in
order; a failing fetch however panics and aborts the whole batch. -/
theorem c2_chunking_and_all_success_shape {ε α : Type}
    (locs : List Location) (fetch : Location → Except ε α)
    (h12 : locs.length = 12) (hok : ∀ l ∈ locs, (fetch l).isOk = true) :
    (chunksOf 5 locs).map List.length = [5, 5, 2] ∧
    ∃ out, runBatch fetch locs = some out ∧ out.map Prod.fst = locs := by
  constructor
  · rw [chunksOf_map_length 5 (by omega) locs, h12]
    norm_num [chunkSizes_succ 5 (by omega)]
    rw [chunkSizes]
  · have hok2 : ∀ c ∈ chunksOf 5 locs, ∀ l ∈ c, (fetch l).isOk = true := by
      intro c hc l hl
      apply hok
      have : l ∈ (chunksOf 5 locs).flatten := List.mem_flatten.mpr ⟨c, hc, hl⟩
      rwa [chunksOf_flatten 5 (by omega) locs] at this
    obtain ⟨out, hout, hfst⟩ := runChunks_all_ok fetch (chunksOf 5 locs) hok2
    exact ⟨out, hout, by rw [hfst, chunksOf_flatten 5 (by omega) locs]⟩

/-- C2 (witness): the amended theorem applied to twelve concrete
locations and an always-succeeding fetch. -/
theorem c2_chunking_and_all_success_shape_witness :
    (chunksOf 5 twelveLocs).map List.length = [5, 5, 2] ∧
    ∃ out, runBatch okFetch twelveLocs = some out ∧ out.map Prod.fst = twelveLocs :=
  c2_chunking_and_all_success_shape twelveLocs okFetch
    (by simp [twelveLocs]) (fun l _ => rfl)

/-- C3: `SummaryBuilder::build` is complete-or-error.  For every builder
state, either it returns a summary whose four fields are exactly the
four set builder fields (so all were set and no partially filled summary
escapes), or it fails with `MissingFields` listing exactly the absent
fields, in the fixed order `restaurant_id`, `veggie_bowl_price`,
`chicken_bowl_price`, `steak_bowl_price` (the filter of `fieldOrder` by
absence), the list being non-empty. -/
theorem c3_build_complete_or_error (b : SummaryBuilder) :
    (∃ s : Summary, b.build = .ok s ∧ b.restaurant_id = some s.restaurant_id ∧
      b.veggie_bowl_price = some s.veggie_bowl_price ∧
      b.chicken_bowl_price = some s.chicken_bowl_price ∧
      b.steak_bowl_price = some s.steak_bowl_price) ∨
    (b.build = .error (.MissingFields (absentFields b)) ∧ absentFields b ≠ []) := by
  obtain ⟨r, v, c, s⟩ := b
  cases r <;> cases v <;> cases c <;> cases s <;>
    simp [SummaryBuilder.build, SummaryBuilder.isComplete, absentFields, fieldOrder]

/-- C4 (counterexample): `EndpointConfig::validate` accepts a menu
endpoint with an *empty* replace token — the claim that a required-token
profile fails with `MissingReplaceToken` when the token is empty is
false for the endpoint-configuration validator (which checks presence
only). -/
theorem c4_empty_token_passes_validate :
    emptyTokenMenuConfig.validate = .ok () := by
  simp [emptyTokenMenuConfig, EndpointConfig.validate, EndpointConfig.validateMenu,
    EndpointConfig.validateRestaurant]

/-- C4 (amended): validation is split between two constructors.
`EndpointConfig::validate` fails with `UnnecessaryReplaceToken` when
api_key or restaurant carries a token and with `MissingReplaceToken`
only when the menu token is *absent* (`None`) — emptiness and URL
containment are not checked there; those checks live in the menu
`Endpoint::try_new`, which fails with `MissingReplaceToken` exactly for
an empty token, `MissingEndpoint` for an empty format, and
`ReplaceTokenNotInEndpoint` exactly when the token does not occur in the
format, succeeding otherwise.  Rendering (`to_url`) performs no
validation — it is a total replacement. -/
theorem c4_validation_at_construction :
    (∀ (cfg : EndpointConfig) (e : CEndpoint) (t : List Char),
      cfg.api_key = some e → e.replace_token = some t →
        cfg.validate = .error (.UnnecessaryReplaceToken "api_key".data t)) ∧
    (∀ (cfg : EndpointConfig) (e : CEndpoint),
      (∀ a, cfg.api_key = some a → a.replace_token = none) →
      cfg.menu = some e → e.replace_token = none →
        cfg.validate = .error (.MissingReplaceToken "menu".data e.url)) ∧
    (∀ (cfg : EndpointConfig) (e : CEndpoint) (t : List Char),
      (∀ a, cfg.api_key = some a → a.replace_token = none) →
      (∀ m, cfg.menu = some m → m.replace_token ≠ none) →
      cfg.restaurant = some e → e.replace_token = some t →
        cfg.validate = .error (.UnnecessaryReplaceToken "restaurant".data t)) ∧
    (∀ fmt tok : List Char,
      (MenuEndpoint.tryNew fmt tok = .error .MissingReplaceToken ↔ tok = []) ∧
      (MenuEndpoint.tryNew fmt tok = .error .MissingEndpoint ↔ (tok ≠ [] ∧ fmt = [])) ∧
      (MenuEndpoint.tryNew fmt tok = .error .ReplaceTokenNotInEndpoint ↔
        (tok ≠ [] ∧ fmt ≠ [] ∧ containsSub tok fmt = false)) ∧
      (MenuEndpoint.tryNew fmt tok = .ok ⟨fmt, tok⟩ ↔
        (tok ≠ [] ∧ fmt ≠ [] ∧ containsSub tok fmt = true))) := by
  refine ⟨?_, ?_, ?_, ?_⟩
  · rintro cfg e t hak ht
    simp [EndpointConfig.validate, hak, ht]
  · rintro cfg e hak hm ht
    rcases hc : cfg.api_key with _ | a
    · simp [EndpointConfig.validate, hc, EndpointConfig.validateMenu, hm, ht]
    · have := hak a hc
      simp [EndpointConfig.validate, hc, this, EndpointConfig.validateMenu, hm, ht]
  · rintro cfg e t hak hm hr ht
    have hmen : ∀ m, cfg.menu = some m → ∃ t2, m.replace_token = some t2 := by
      intro m hmm
      rcases hmt : m.replace_token with _ | t2
      · exact absurd hmt (hm m hmm)
      · exact ⟨t2, rfl⟩
    rcases hc : cfg.api_key with _ | a
    · rcases hm2 : cfg.menu with _ | m
      · simp [EndpointConfig.validate, hc, EndpointConfig.validateMenu, hm2,
          EndpointConfig.validateRestaurant, hr, ht]
      · obtain ⟨t2, ht2⟩ := hmen m hm2
        simp [EndpointConfig.validate, hc, EndpointConfig.validateMenu, hm2, ht2,
          EndpointConfig.validateRestaurant, hr, ht]
    · have := hak a hc
      rcases hm2 : cfg.menu with _ | m
      · simp [EndpointConfig.validate, hc, this, EndpointConfig.validateMenu, hm2,
          EndpointConfig.validateRestaurant, hr, ht]
      · obtain ⟨t2, ht2⟩ := hmen m hm2
        simp [EndpointConfig.validate, hc, this, EndpointConfig.validateMenu, hm2, ht2,
          EndpointConfig.validateRestaurant, hr, ht]
  · intro fmt tok
    by_cases h1 : tok = [] <;> by_cases h2 : fmt = [] <;>
      by_cases h3 : containsSub tok fmt <;>
      simp [MenuEndpoint.tryNew, h1, h2, h3]

/-- C4 (witness): the amended theorem applied to concrete
configurations — a token on api_key, a tokenless menu endpoint, a token
on restaurant, and the four `try_new` outcomes. -/
theorem c4_validation_at_construction_witness :
    EndpointConfig.validate
      ⟨some ⟨"k".data, some "$x".data⟩, none, none⟩ =
      .error (.UnnecessaryReplaceToken "api_key".data "$x".data) ∧
    EndpointConfig.validate
      ⟨none, some ⟨"m".data, none⟩, none⟩ =
      .error (.MissingReplaceToken "menu".data "m".data) ∧
    EndpointConfig.validate
      ⟨none, some ⟨"m$s".data, some "$s".data⟩, some ⟨"r".data, some "$r".data⟩⟩ =
      .error (.UnnecessaryReplaceToken "restaurant".data "$r".data) ∧
    MenuEndpoint.tryNew "u".data [] = .error .MissingReplaceToken ∧
    MenuEndpoint.tryNew [] "$s".data = .error .MissingEndpoint ∧
    MenuEndpoint.tryNew "u".data "$s".data = .error .ReplaceTokenNotInEndpoint ∧
    MenuEndpoint.tryNew "u$s".data "$s".data = .ok ⟨"u$s".data, "$s".data⟩ := by
  refine ⟨?_, ?_, ?_, ?_, ?_, ?_, ?_⟩
  · exact c4_validation_at_construction.1 _ _ _ rfl rfl
  · exact c4_validation_at_construction.2.1
      ⟨none, some ⟨"m".data, none⟩, none⟩ ⟨"m".data, none⟩
      (fun a ha => Option.noConfusion ha) rfl rfl
  · exact c4_validation_at_construction.2.2.1
      ⟨none, some ⟨"m$s".data, some "$s".data⟩, some ⟨"r".data, some "$r".data⟩⟩
      ⟨"r".data, some "$r".data⟩ "$r".data
      (fun a ha => Option.noConfusion ha)
      (by intro m hm; injection hm with h2; subst h2; simp) rfl rfl
  · exact (c4_validation_at_construction.2.2.2 "u".data []).1.mpr rfl
  · exact (c4_validation_at_construction.2.2.2 [] "$s".data).2.1.mpr (by decide)
  · exact (c4_validation_at_construction.2.2.2 "u".data "$s".data).2.2.1.mpr (by decide)
  · exact (c4_validation_at_construction.2.2.2 "u$s".data "$s".data).2.2.2.mpr (by decide)

/-- C5: location directory filtering and ZIP normalization.  A record
whose first address is non-US is excluded; a record with no addresses is
skipped without failing; the id 3065 always gets the override value
"75235" regardless of its address; an id without override uses the
address postal code, truncated to the first 5 characters when longer;
every emitted ZIP has length at most 5; and a qualifying US record emits
exactly one `Location` with its computed ZIP. -/
theorem c5_us_filter_and_zip :
    (∀ (l : LocationData) (rest : List LocationData) (a : Address),
      l.addresses.head? = some a → a.country_code ≠ "US".data →
      getUsLocations (l :: rest) = getUsLocations rest) ∧
    (∀ (l : LocationData) (rest : List LocationData),
      l.addresses = [] → getUsLocations (l :: rest) = getUsLocations rest) ∧
    (∀ a : Address, getZipCode 3065 a = some "75235".data) ∧
    (∀ (id : Int) (a : Address) (p : List Char), id ≠ 3065 → a.postal_code = some p →
      getZipCode id a = some (if 5 < p.length then p.take 5 else p)) ∧
    (∀ (id : Int) (a : Address) (z : List Char), getZipCode id a = some z → z.length ≤ 5) ∧
    (∀ (l : LocationData) (rest : List LocationData) (a : Address) (z : List Char),
      l.addresses.head? = some a → a.country_code = "US".data → getZipCode l.id a = some z →
      getUsLocations (l :: rest) = (getUsLocations rest).map (⟨l.id, z⟩ :: ·)) := by
  refine ⟨?_, ?_, ?_, ?_, ?_, ?_⟩
  · intro l rest a ha hc
    simp [getUsLocations, ha, hc]
  · intro l rest ha
    simp [getUsLocations, ha]
  · intro a
    simp [getZipCode, zipOverrides]
  · intro id a p hid hp
    simp [getZipCode, zipOverrides, hid, hp]
  · intro id a z hz
    rcases ho : (zipOverrides id).or a.postal_code with _ | x
    · simp [getZipCode, ho] at hz
    · simp only [getZipCode, ho, Option.map, Option.some.injEq] at hz
      subst hz
      split
      · simp
      · omega
  · intro l rest a z ha hc hz
    simp [getUsLocations, ha, hc, hz]

/-- C5 (witness): the theorem applied to concrete records — a Canadian
record, an addressless record, the overridden id 3065, a long postal
code for an ordinary id, the length bound, and a qualifying US
record. -/
theorem c5_us_filter_and_zip_witness :
    getUsLocations [⟨9, [⟨some "12345".data, "CA".data⟩]⟩] = getUsLocations [] ∧
    getUsLocations [⟨9, []⟩] = getUsLocations [] ∧
    getZipCode 3065 ⟨some "99999-1234".data, "US".data⟩ = some "75235".data ∧
    getZipCode 7 ⟨some "12345-6789".data, "US".data⟩ =
      some (if 5 < "12345-6789".data.length then "12345-6789".data.take 5
            else "12345-6789".data) ∧
    ("12345".data).length ≤ 5 ∧
    getUsLocations [⟨7, [⟨some "12345".data, "US".data⟩]⟩] =
      (getUsLocations []).map (⟨7, "12345".data⟩ :: ·) := by
  refine ⟨?_, ?_, ?_, ?_, ?_, ?_⟩
  · exact c5_us_filter_and_zip.1 _ [] _ rfl (by decide)
  · exact c5_us_filter_and_zip.2.1 _ [] rfl
  · exact c5_us_filter_and_zip.2.2.1 _
  · exact c5_us_filter_and_zip.2.2.2.1 7 _ _ (by decide) rfl
  · exact c5_us_filter_and_zip.2.2.2.2.1 7 ⟨some "12345".data, "US".data⟩ _ (by rfl)
  · exact c5_us_filter_and_zip.2.2.2.2.2 _ [] _ _ rfl rfl (by rfl)

/-- C6 (counterexample): `get_us_locations` is *not* total.  On a US
record whose id has no override entry and whose first address carries no
postal code, `get_zip_code` unwraps a `None` and panics (modelled as
`none`), so the directory computation yields no value. -/
theorem c6_zip_unwrap_panics_counterexample :
    getUsLocations [noZipRecord] = none ∧ getZipCode 1 ⟨none, "US".data⟩ = none := by
  constructor
  · simp [noZipRecord, getUsLocations, getZipCode, zipOverrides]
  · simp [getZipCode, zipOverrides]

/-- C6 (amended): the ZIP computation panics exactly when a qualifying
US record has neither an override entry nor an address postal code; when
every qualifying record has one of the two, `get_us_locations` returns a
value (no panic). -/
theorem c6_no_panic_when_zip_available (data : List LocationData)
    (h : ∀ l ∈ data, ∀ a, l.addresses.head? = some a → a.country_code = "US".data →
      ((zipOverrides l.id).isSome ∨ a.postal_code.isSome)) :
    ∃ out, getUsLocations data = some out := by
  induction data with
  | nil => exact ⟨[], rfl⟩
  | cons l rest ih =>
    obtain ⟨out, hout⟩ := ih (fun x hx => h x (List.mem_cons_of_mem l hx))
    rcases ha : l.addresses.head? with _ | a
    · exact ⟨out, by simp [getUsLocations, ha, hout]⟩
    · by_cases hc : a.country_code = "US".data
      · have := h l (List.mem_cons_self l rest) a ha hc
        have hz : ∃ z, getZipCode l.id a = some z := by
          rcases this with hov | hp
          · rcases ho : zipOverrides l.id with _ | v
            · simp [ho] at hov
            · exact ⟨if 5 < v.length then v.take 5 else v, by simp [getZipCode, ho]⟩
          · rcases hpp : a.postal_code with _ | p
            · simp [hpp] at hp
            · rcases ho : zipOverrides l.id with _ | v
              · exact ⟨if 5 < p.length then p.take 5 else p, by simp [getZipCode, ho, hpp]⟩
              · exact ⟨if 5 < v.length then v.take 5 else v, by simp [getZipCode, ho]⟩
        obtain ⟨z, hzz⟩ := hz
        exact ⟨⟨l.id, z⟩ :: out, by simp [getUsLocations, ha, hc, hzz, hout]⟩
      · exact ⟨out, by simp [getUsLocations, ha, hc, hout]⟩

/-- C6 (witness): the amended theorem applied to a list with one
overridden record and one record with a postal code. -/
theorem c6_no_panic_when_zip_available_witness :
    ∃ out, getUsLocations
      [⟨3065, [⟨none, "US".data⟩]⟩, ⟨2, [⟨some "60601".data, "US".data⟩]⟩] = some out :=
  c6_no_panic_when_zip_available
    [⟨3065, [⟨none, "US".data⟩]⟩, ⟨2, [⟨some "60601".data, "US".data⟩]⟩]
    (by decide)

/-- C7: credential cache idempotence.  A cached key with
`force_refresh = false` is returned unchanged with no fetch and no state
change; `force_refresh = true` always fetches (a successful fetch
replaces the cache, a failed one leaves it); and after any call that
returned a key, a further non-forced call returns that same key without
fetching. -/
theorem c7_cache_idempotent :
    (∀ (c : ClientState) (k : List Char) (f : Except ApiKeyError (List Char)),
      c.api_key = some k → c.loadApiKey false f = (.ok k, c, false)) ∧
    (∀ (c : ClientState) (k : List Char),
      c.loadApiKey true (.ok k) = (.ok k, { c with api_key := some k }, true)) ∧
    (∀ (c : ClientState) (e : ApiKeyError),
      c.loadApiKey true (.error e) = (.error e, c, true)) ∧
    (∀ (c : ClientState) (force : Bool) (f f2 : Except ApiKeyError (List Char)) (k : List Char),
      (c.loadApiKey force f).1 = .ok k →
      ((c.loadApiKey force f).2.1).loadApiKey false f2 =
        (.ok k, (c.loadApiKey force f).2.1, false)) := by
  refine ⟨?_, ?_, ?_, ?_⟩
  · intro c k f hk
    simp [ClientState.loadApiKey, hk]
  · intro c k
    rcases hk : c.api_key with _ | k0 <;> simp [ClientState.loadApiKey, hk]
  · intro c e
    rcases hk : c.api_key with _ | k0 <;> simp [ClientState.loadApiKey, hk]
  · intro c force f f2 k hres
    rcases hk : c.api_key with _ | k0 <;> rcases force <;> rcases f with e | v <;>
      simp [ClientState.loadApiKey, hk] at hres ⊢ <;> simp [hres]

/-- C7 (witness): the theorem applied to concrete client states — a
cached key returned without fetching, a forced refresh replacing it, a
failed forced refresh, and the second non-forced call after a fetch. -/
theorem c7_cache_idempotent_witness :
    ClientState.loadApiKey ⟨none, some "k1".data⟩ false (.ok "k2".data) =
      (.ok "k1".data, ⟨none, some "k1".data⟩, false) ∧
    ClientState.loadApiKey ⟨none, some "k1".data⟩ true (.ok "k2".data) =
      (.ok "k2".data, ⟨none, some "k2".data⟩, true) ∧
    ClientState.loadApiKey ⟨none, some "k1".data⟩ true (.error .ApiKeyNotFound) =
      (.error .ApiKeyNotFound, ⟨none, some "k1".data⟩, true) ∧
    ((ClientState.loadApiKey ⟨none, none⟩ false (.ok "k2".data)).2.1).loadApiKey false
        (.ok "k3".data) =
      (.ok "k2".data, (ClientState.loadApiKey ⟨none, none⟩ false (.ok "k2".data)).2.1, false) :=
  ⟨c7_cache_idempotent.1 ⟨none, some "k1".data⟩ "k1".data (.ok "k2".data) rfl,
   c7_cache_idempotent.2.1 ⟨none, some "k1".data⟩ "k2".data,
   c7_cache_idempotent.2.2.1 ⟨none, some "k1".data⟩ .ApiKeyNotFound,
   c7_cache_idempotent.2.2.2 ⟨none, none⟩ false (.ok "k2".data) (.ok "k3".data)
     "k2".data rfl⟩

/-- C8: credential acquisition outcomes.  For every received response,
exactly one of three outcomes occurs: the status error carrying the real
status iff the status is not a success; the extracted key iff the status
is a success and the leftmost marker match yields a capture; the
not-found error iff the status is a success and the pattern does not
match.  Moreover a success body of shape
`marker-open ++ key ++ marker-close ++ rest` with a non-empty key drawn
from `[a-zA-Z0-9-]` yields exactly that key. -/
theorem c8_acquire_outcomes (resp : HttpResponse) :
    (apiKeyGet resp = .error (.ResponseError resp.status) ↔
      isSuccessStatus resp.status = false) ∧
    (∀ k, apiKeyGet resp = .ok k ↔
      (isSuccessStatus resp.status = true ∧ extractApiKey resp.body = some k)) ∧
    (apiKeyGet resp = .error .ApiKeyNotFound ↔
      (isSuccessStatus resp.status = true ∧ extractApiKey resp.body = none)) ∧
    (∀ (k post : List Char), k ≠ [] → (∀ c ∈ k, keyChar c = true) →
      isSuccessStatus resp.status = true →
      resp.body = keyMarkerOpen ++ (k ++ (keyMarkerClose ++ post)) →
      apiKeyGet resp = .ok k) := by
  refine ⟨?_, ?_, ?_, ?_⟩
  · by_cases hs : isSuccessStatus resp.status <;>
      rcases he : extractApiKey resp.body with _ | k <;> simp [apiKeyGet, hs, he]
  · intro k
    by_cases hs : isSuccessStatus resp.status <;>
      rcases he : extractApiKey resp.body with _ | k2 <;> simp [apiKeyGet, hs, he]
  · by_cases hs : isSuccessStatus resp.status <;>
      rcases he : extractApiKey resp.body with _ | k2 <;> simp [apiKeyGet, hs, he]
  · intro k post hk hkc hs hbody
    have hne : resp.body ≠ [] := by simp [hbody, keyMarkerOpen]
    have := extractApiKey_of_matchKeyAt resp.body k hne
      (by rw [hbody]; exact matchKeyAt_decompose k post hk hkc)
    simp [apiKeyGet, hs, this]

/-- C8 (witness): the theorem applied to a 403 response (status error
with the real status) and to a 200 response whose body embeds the marker
around `fake-api-key` (the key is extracted). -/
theorem c8_acquire_outcomes_witness :
    apiKeyGet ⟨403, "nope".data⟩ = .error (.ResponseError 403) ∧
    apiKeyGet ⟨200, keyMarkerOpen ++ ("fake-api-key".data ++
        (keyMarkerClose ++ ";3fjh".data))⟩ = .ok "fake-api-key".data ∧
    apiKeyGet ⟨200, "thingthing;3fjhkasfd78r3".data⟩ = .error .ApiKeyNotFound :=
  ⟨(c8_acquire_outcomes ⟨403, "nope".data⟩).1.mpr (by decide),
   (c8_acquire_outcomes ⟨200, keyMarkerOpen ++ ("fake-api-key".data ++
       (keyMarkerClose ++ ";3fjh".data))⟩).2.2.2 "fake-api-key".data ";3fjh".data
     (by decide) (by decide) (by decide) rfl,
   (c8_acquire_outcomes ⟨200, "thingthing;3fjhkasfd78r3".data⟩).2.2.1.mpr
     ⟨by decide, by decide⟩⟩

/-- C9: rendering a validly constructed menu endpoint is exact substring
replacement.  For every endpoint produced by `try_new` and every value:
the rendered URL is the format's token-separated segments joined with
the value; joining the same segments with the token reconstructs the
format exactly (so nothing else is changed); no segment contains the
token (so *every* occurrence is replaced); and a string with no
occurrence of the token renders unchanged (the no-token no-op). -/
theorem c9_render_exact_replacement (fmt tok v : List Char) (e : MenuEndpoint)
    (h : MenuEndpoint.tryNew fmt tok = .ok e) :
    e.toUrl v = joinWith v (specSplit tok fmt) ∧
    joinWith tok (specSplit tok fmt) = fmt ∧
    (∀ seg ∈ specSplit tok fmt, containsSub tok seg = false) ∧
    (∀ s : List Char, containsSub tok s = false → strReplace tok v s = s) := by
  have hfields : e.url = fmt ∧ e.replace_token = tok ∧ tok ≠ [] := by
    simp only [MenuEndpoint.tryNew] at h
    split at h
    · exact absurd h (by simp)
    · split at h
      · exact absurd h (by simp)
      · split at h
        · exact absurd h (by simp)
        · rename_i h1 h2 h3
          simp only [Except.ok.injEq] at h
          subst h
          exact ⟨rfl, rfl, h1⟩
  obtain ⟨hu, ht, hp⟩ := hfields
  refine ⟨?_, joinWith_pat_specSplit tok hp fmt,
    (specSplit_segments_token_free tok hp fmt).1,
    fun s hc => strReplace_of_not_contains tok v s hc⟩
  rw [MenuEndpoint.toUrl, hu, ht]
  exact strReplace_eq_joinWith_specSplit tok v hp fmt

/-- C9 (witness): the theorem applied to the spec's example template
`https://x/$id/menu` with token `$id` and value `42`. -/
theorem c9_render_exact_replacement_witness :
    MenuEndpoint.toUrl ⟨"https://x/$id/menu".data, "$id".data⟩ "42".data =
      joinWith "42".data (specSplit "$id".data "https://x/$id/menu".data) ∧
    joinWith "$id".data (specSplit "$id".data "https://x/$id/menu".data) =
      "https://x/$id/menu".data ∧
    (∀ seg ∈ specSplit "$id".data "https://x/$id/menu".data,
      containsSub "$id".data seg = false) ∧
    (∀ s : List Char, containsSub "$id".data s = false →
      strReplace "$id".data "42".data s = s) :=
  c9_render_exact_replacement "https://x/$id/menu".data "$id".data "42".data
    ⟨"https://x/$id/menu".data, "$id".data⟩ rfl

/-- C10: reduction ignores irrelevant items.  Deleting any item whose
type does not normalize to "bowl" or whose normalized name is none of
"veggie", "chicken", "steak" leaves the reduction result of the whole
response unchanged — such items never cause an error. -/
theorem c10_delete_irrelevant_item (rid : Int) (xs ys sides : List Item)
    (item : Item) (hirr : irrelevantItem item) :
    summaryTryFrom ⟨rid, xs ++ item :: ys, sides⟩ = summaryTryFrom ⟨rid, xs ++ ys, sides⟩ := by
  simp [summaryTryFrom, reduceItems_append_irrelevant item hirr ys xs]

/-- C10 (witness): deleting a side item (type "Side") from a concrete
response leaves the summary unchanged. -/
theorem c10_delete_irrelevant_item_witness :
    irrelevantItem (mkItem "Side" "Chips" 1) ∧
    summaryTryFrom ⟨7, [mkItem "Bowl" "Veggie Bowl" 1] ++ mkItem "Side" "Chips" 1 ::
        [mkItem "Bowl" "Chicken Bowl" 2, mkItem "Bowl" "Steak Bowl" 3], []⟩ =
      summaryTryFrom ⟨7, [mkItem "Bowl" "Veggie Bowl" 1] ++
        [mkItem "Bowl" "Chicken Bowl" 2, mkItem "Bowl" "Steak Bowl" 3], []⟩ :=
  have hirr : irrelevantItem (mkItem "Side" "Chips" 1) := Or.inl (by decide)
  ⟨hirr, c10_delete_irrelevant_item 7 [mkItem "Bowl" "Veggie Bowl" 1]
    [mkItem "Bowl" "Chicken Bowl" 2, mkItem "Bowl" "Steak Bowl" 3] []
    (mkItem "Side" "Chips" 1) hirr⟩

end Burrito
